import Mathlib

/-!
Shallow embedding of `src/bowling_game.py` (class `BowlingGame`) and proofs
of the specification claims about it.

The roll history `self.rolls` is a `List Int` (Python ints validated to
[0,10] on entry, but the observers are defined on arbitrary lists, as in
the source).  Python list indexing `rolls[i]` is embedded as
`rolls.getD i 0` at places where the source has already checked the bound,
and a genuinely unchecked access (which can raise `IndexError`) makes the
embedding return `none`.  The nine-frame loops (`for frame in range(9)`)
become fuel-indexed recursions with fuel 9.
-/

namespace Bowling

/-- The `BowlingGame` object state: `self.rolls` and `self.current_roll`. -/
structure Game where
  rolls : List Int
  current_roll : Nat
deriving Repr, DecidableEq

/-- `BowlingGame.__init__`: empty rolls, current roll index 0. -/
def initGame : Game := ⟨[], 0⟩

/-- A Python value passed to `roll`: either an actual `int`, or a value of
some non-integer type (its identity is irrelevant to the control flow). -/
inductive PyInput where
  | int (n : Int)
  | nonint
deriving Repr, DecidableEq

/-- `BowlingGame.roll`: raises `ValueError` (modelled as `.error ()`) when
`pins` is not an `int` or is outside `[0, 10]`; otherwise appends `pins`
to `rolls` and increments `current_roll`. -/
def roll (g : Game) (pins : PyInput) : Except Unit Game :=
  match pins with
  | .nonint => .error ()
  | .int n =>
    if n < 0 ∨ n > 10 then .error ()
    else .ok ⟨g.rolls ++ [n], g.current_roll + 1⟩

/-- `BowlingGame._is_strike`: `frame_index < len(rolls) and
rolls[frame_index] == 10`. -/
def is_strike (rolls : List Int) (fi : Nat) : Bool :=
  fi < rolls.length && rolls.getD fi 0 == 10

/-- `BowlingGame._is_spare`: `frame_index + 1 < len(rolls) and
rolls[frame_index] + rolls[frame_index + 1] == 10`. -/
def is_spare (rolls : List Int) (fi : Nat) : Bool :=
  fi + 1 < rolls.length && rolls.getD fi 0 + rolls.getD (fi + 1) 0 == 10

/-- `BowlingGame._strike_bonus`: next two rolls, as many as exist. -/
def strike_bonus (rolls : List Int) (fi : Nat) : Int :=
  if fi + 2 < rolls.length then rolls.getD (fi + 1) 0 + rolls.getD (fi + 2) 0
  else if fi + 1 < rolls.length then rolls.getD (fi + 1) 0
  else 0

/-- `BowlingGame._spare_bonus`: the roll after the pair, if it exists. -/
def spare_bonus (rolls : List Int) (fi : Nat) : Int :=
  if fi + 2 < rolls.length then rolls.getD (fi + 2) 0
  else 0

/-- `BowlingGame._score_tenth_frame`: all accesses are bounds-checked in
the source, so this is a total function. -/
def score_tenth_frame (rolls : List Int) (fi : Nat) : Int :=
  if is_strike rolls fi then
    if fi + 2 < rolls.length then 10 + rolls.getD (fi + 1) 0 + rolls.getD (fi + 2) 0
    else if fi + 1 < rolls.length then 10 + rolls.getD (fi + 1) 0
    else 10
  else if is_spare rolls fi then
    if fi + 2 < rolls.length then 10 + rolls.getD (fi + 2) 0
    else 10
  else
    if fi + 1 < rolls.length then rolls.getD fi 0 + rolls.getD (fi + 1) 0
    else if fi < rolls.length then rolls.getD fi 0
    else 0

/-- The `for frame in range(9)` loop of `BowlingGame.score`, as a
fuel-indexed recursion carrying `(score, frame_index)`.  The open-frame
branch reads `rolls[frame_index]` and `rolls[frame_index + 1]` with no
bounds check: when `frame_index + 1 ≥ len(rolls)` Python raises
`IndexError`, embedded as `none` (note `fi + 1 < len` implies both
accesses are in bounds). -/
def scoreLoop : Nat → Nat → Int → List Int → Option (Int × Nat)
  | 0, fi, acc, _ => some (acc, fi)
  | n + 1, fi, acc, rolls =>
    if is_strike rolls fi then
      scoreLoop n (fi + 1) (acc + (10 + strike_bonus rolls fi)) rolls
    else if is_spare rolls fi then
      scoreLoop n (fi + 2) (acc + (10 + spare_bonus rolls fi)) rolls
    else if fi + 1 < rolls.length then
      scoreLoop n (fi + 2) (acc + (rolls.getD fi 0 + rolls.getD (fi + 1) 0)) rolls
    else none

/-- `BowlingGame.score`: nine-frame loop, then the tenth frame.  `none`
models the uncaught `IndexError` from the open-frame branch. -/
def score (rolls : List Int) : Option Int :=
  (scoreLoop 9 0 0 rolls).map fun p => p.1 + score_tenth_frame rolls p.2

/-- The `for frame in range(9)` loop of `BowlingGame.get_frame_scores`:
identical walk, but the open-frame branch bounds-checks both accesses
(absent rolls contribute 0), so it is total.  Returns the per-frame
scores together with the final `frame_index`. -/
def frameLoop : Nat → Nat → List Int → List Int × Nat
  | 0, fi, _ => ([], fi)
  | n + 1, fi, rolls =>
    if is_strike rolls fi then
      let r := frameLoop n (fi + 1) rolls
      ((10 + strike_bonus rolls fi) :: r.1, r.2)
    else if is_spare rolls fi then
      let r := frameLoop n (fi + 2) rolls
      ((10 + spare_bonus rolls fi) :: r.1, r.2)
    else
      let v : Int :=
        if fi + 1 < rolls.length then rolls.getD fi 0 + rolls.getD (fi + 1) 0
        else if fi < rolls.length then rolls.getD fi 0
        else 0
      let r := frameLoop n (fi + 2) rolls
      (v :: r.1, r.2)

/-- `BowlingGame.get_frame_scores`: nine per-frame scores plus the
tenth-frame score. -/
def get_frame_scores (rolls : List Int) : List Int :=
  let r := frameLoop 9 0 rolls
  r.1 ++ [score_tenth_frame rolls r.2]

/-- The `for frame in range(9)` loop of `BowlingGame.is_game_complete`:
returns `none` on an early `return False` (a needed roll does not exist),
otherwise the `frame_index` reached after nine frames. -/
def completeLoop : Nat → Nat → List Int → Option Nat
  | 0, fi, _ => some fi
  | n + 1, fi, rolls =>
    if fi ≥ rolls.length then none
    else if is_strike rolls fi then completeLoop n (fi + 1) rolls
    else if fi + 1 ≥ rolls.length then none
    else completeLoop n (fi + 2) rolls

/-- `BowlingGame.is_game_complete`: nine-frame walk, then the
tenth-frame roll-count rules. -/
def is_game_complete (rolls : List Int) : Bool :=
  match completeLoop 9 0 rolls with
  | none => false
  | some fi =>
    let rolls_in_tenth := rolls.length - fi
    if rolls_in_tenth < 2 then false
    else if is_strike rolls fi || is_spare rolls fi then rolls_in_tenth ≥ 3
    else rolls_in_tenth ≥ 2

end Bowling


namespace Bowling

/-! ## Helper lemmas shared between claims -/

/-- `frameLoop` emits exactly one frame score per loop iteration. -/
theorem frameLoop_length (rolls : List Int) :
    ∀ (n fi : Nat), (frameLoop n fi rolls).1.length = n := by
  intro n
  induction n with
  | zero => intro fi; rfl
  | succ n ih =>
    intro fi
    rw [frameLoop]
    split
    · simp [ih]
    · split
      · simp [ih]
      · simp [ih]

/-- A strike check implies the first roll of the frame exists. -/
theorem is_strike_lt (rolls : List Int) (fi : Nat) (h : is_strike rolls fi = true) :
    fi < rolls.length := by
  rw [is_strike] at h
  simp at h
  exact h.1

/-- A spare check implies both rolls of the frame exist. -/
theorem is_spare_lt (rolls : List Int) (fi : Nat) (h : is_spare rolls fi = true) :
    fi + 1 < rolls.length := by
  rw [is_spare] at h
  simp at h
  exact h.1

/-- When the completeness walk of `is_game_complete` succeeds, the score
loop does not hit the unchecked open-frame access, and the frame-score
loop visits exactly the same frames: the final cursors agree and the
accumulated score equals the sum of the per-frame scores. -/
theorem scoreLoop_frameLoop_of_completeLoop (rolls : List Int) :
    ∀ (n fi fi' : Nat), completeLoop n fi rolls = some fi' →
      (frameLoop n fi rolls).2 = fi' ∧
        ∀ acc : Int,
          scoreLoop n fi acc rolls = some (acc + (frameLoop n fi rolls).1.sum, fi') := by
  intro n
  induction n with
  | zero =>
    intro fi fi' h
    rw [completeLoop] at h
    cases h
    exact ⟨rfl, fun acc => by simp [scoreLoop, frameLoop]⟩
  | succ n ih =>
    intro fi fi' h
    rw [completeLoop] at h
    by_cases h1 : fi ≥ rolls.length
    · rw [if_pos h1] at h; cases h
    rw [if_neg h1] at h
    by_cases hs : is_strike rolls fi
    · rw [if_pos hs] at h
      obtain ⟨hf, hsc⟩ := ih (fi + 1) fi' h
      refine ⟨by rw [frameLoop, if_pos hs]; exact hf, fun acc => ?_⟩
      rw [scoreLoop, if_pos hs, frameLoop, if_pos hs,
        hsc (acc + (10 + strike_bonus rolls fi))]
      simp only [List.sum_cons, Option.some.injEq, Prod.mk.injEq]
      exact ⟨by ring, trivial⟩
    rw [if_neg hs] at h
    by_cases h2 : fi + 1 ≥ rolls.length
    · rw [if_pos h2] at h; cases h
    rw [if_neg h2] at h
    obtain ⟨hf, hsc⟩ := ih (fi + 2) fi' h
    by_cases hsp : is_spare rolls fi
    · refine ⟨by rw [frameLoop, if_neg hs, if_pos hsp]; exact hf, fun acc => ?_⟩
      rw [scoreLoop, if_neg hs, if_pos hsp, frameLoop, if_neg hs, if_pos hsp,
        hsc (acc + (10 + spare_bonus rolls fi))]
      simp only [List.sum_cons, Option.some.injEq, Prod.mk.injEq]
      exact ⟨by ring, trivial⟩
    · have h2' : fi + 1 < rolls.length := by omega
      refine ⟨by rw [frameLoop, if_neg hs, if_neg hsp]; exact hf, fun acc => ?_⟩
      rw [scoreLoop, if_neg hs, if_neg hsp, if_pos h2', frameLoop, if_neg hs, if_neg hsp,
        hsc (acc + (rolls.getD fi 0 + rolls.getD (fi + 1) 0))]
      simp only [if_pos h2', List.sum_cons, Option.some.injEq, Prod.mk.injEq]
      exact ⟨by ring, trivial⟩

end Bowling

namespace Bowling

/-- Appending a roll does not change an in-range element. -/
theorem getD_append_lt (rolls : List Int) (p : Int) (i : Nat) (h : i < rolls.length) :
    (rolls ++ [p]).getD i 0 = rolls.getD i 0 :=
  List.getD_append rolls [p] 0 i h

/-- Appending a roll does not change the strike status of an existing roll. -/
theorem is_strike_append (rolls : List Int) (p : Int) (fi : Nat) (h : fi < rolls.length) :
    is_strike (rolls ++ [p]) fi = is_strike rolls fi := by
  have ha : decide (fi < (rolls ++ [p]).length) = true := by simp; omega
  have hb : decide (fi < rolls.length) = true := by simp [h]
  rw [is_strike, is_strike, getD_append_lt rolls p fi h, ha, hb]

/-- Appending a roll does not change the spare status of an existing pair. -/
theorem is_spare_append (rolls : List Int) (p : Int) (fi : Nat) (h : fi + 1 < rolls.length) :
    is_spare (rolls ++ [p]) fi = is_spare rolls fi := by
  have ha : decide (fi + 1 < (rolls ++ [p]).length) = true := by simp; omega
  have hb : decide (fi + 1 < rolls.length) = true := by simp [h]
  rw [is_spare, is_spare, getD_append_lt rolls p fi (by omega),
    getD_append_lt rolls p (fi + 1) h, ha, hb]

/-- A successful completeness walk is unaffected by appending a roll. -/
theorem completeLoop_append (rolls : List Int) (p : Int) :
    ∀ (n fi fi' : Nat), completeLoop n fi rolls = some fi' →
      completeLoop n fi (rolls ++ [p]) = some fi' := by
  intro n
  induction n with
  | zero =>
    intro fi fi' h
    rw [completeLoop] at h
    cases h
    rfl
  | succ n ih =>
    intro fi fi' h
    rw [completeLoop] at h
    by_cases h1 : fi ≥ rolls.length
    · rw [if_pos h1] at h; cases h
    rw [if_neg h1] at h
    have h1' : ¬ fi ≥ (rolls ++ [p]).length := by simp; omega
    rw [completeLoop, if_neg h1', is_strike_append rolls p fi (by omega)]
    by_cases hs : is_strike rolls fi
    · rw [if_pos hs] at h ⊢
      exact ih (fi + 1) fi' h
    rw [if_neg hs] at h ⊢
    by_cases h2 : fi + 1 ≥ rolls.length
    · rw [if_pos h2] at h; cases h
    rw [if_neg h2] at h
    have h2' : ¬ fi + 1 ≥ (rolls ++ [p]).length := by simp; omega
    rw [if_neg h2']
    exact ih (fi + 2) fi' h

end Bowling

namespace Bowling

/-! ## Spec-side formulations (from the claims' wording, to be compared
with the definitions embedded from the source) -/

/-- C3's validity condition: `pins` is of integer type and lies in [0,10]. -/
def validPin : PyInput → Bool
  | .int n => decide (0 ≤ n ∧ n ≤ 10)
  | .nonint => false

/-- The integer carried by a `PyInput` (0 for a non-integer value; only
used when the input is a valid pin count). -/
def pinValue : PyInput → Int
  | .int n => n
  | .nonint => 0

/-- C10's representation invariant: `current_roll` equals `len(rolls)`. -/
def rollsInv (g : Game) : Prop := g.current_roll = g.rolls.length

/-- Spec wording: the (tenth-)frame roll at the cursor is a strike. -/
def strikeAtSpec (rolls : List Int) (fi : Nat) : Bool :=
  decide (rolls[fi]? = some 10)

/-- Spec wording: the two rolls at the cursor exist and sum to 10. -/
def spareAtSpec (rolls : List Int) (fi : Nat) : Bool :=
  rolls[fi]?.isSome && rolls[fi + 1]?.isSome &&
    (rolls[fi]?.getD 0 + rolls[fi + 1]?.getD 0 == 10)

/-- Spec wording of the frames 1–9 walk (C4): the cursor advances by 1 on
a strike and 2 otherwise, failing as soon as a needed roll does not
exist. -/
def completeSpecWalk : Nat → Nat → List Int → Option Nat
  | 0, fi, _ => some fi
  | n + 1, fi, rolls =>
    if rolls[fi]? = none then none
    else if rolls[fi]? = some 10 then completeSpecWalk n (fi + 1) rolls
    else if rolls[fi + 1]? = none then none
    else completeSpecWalk n (fi + 2) rolls

/-- Spec wording of completeness (C4): walk frames 1–9, then compare the
number of remaining tenth-frame rolls against 2 (open) or 3
(strike/spare). -/
def completeSpec (rolls : List Int) : Bool :=
  match completeSpecWalk 9 0 rolls with
  | none => false
  | some fi =>
    let remaining := rolls.length - fi
    if remaining < 2 then false
    else if strikeAtSpec rolls fi || spareAtSpec rolls fi then remaining ≥ 3
    else remaining ≥ 2

/-- Spec wording of the tenth-frame score (C6): strike → 10 plus
whichever of the next two rolls exist; spare → 10 plus the roll at
`fi + 2` if present; otherwise the sum of whichever of the two frame
rolls exist. -/
def tenthSpec (rolls : List Int) (fi : Nat) : Int :=
  if strikeAtSpec rolls fi then
    if rolls[fi + 1]?.isSome ∧ rolls[fi + 2]?.isSome then
      10 + rolls[fi + 1]?.getD 0 + rolls[fi + 2]?.getD 0
    else if rolls[fi + 1]?.isSome then 10 + rolls[fi + 1]?.getD 0
    else 10
  else if spareAtSpec rolls fi then
    if rolls[fi + 2]?.isSome then 10 + rolls[fi + 2]?.getD 0
    else 10
  else
    if rolls[fi]?.isSome ∧ rolls[fi + 1]?.isSome then
      rolls[fi]?.getD 0 + rolls[fi + 1]?.getD 0
    else if rolls[fi]?.isSome then rolls[fi]?.getD 0
    else 0

/-! ## Bridging lemmas between the spec-side and source-side predicates -/

theorem strikeAtSpec_eq (rolls : List Int) (fi : Nat) :
    strikeAtSpec rolls fi = is_strike rolls fi := by
  rw [strikeAtSpec, is_strike]
  by_cases h : fi < rolls.length
  · rw [List.getElem?_eq_getElem h, List.getD_eq_getElem rolls 0 h]
    simp [h, beq_eq_decide]
  · rw [List.getElem?_eq_none (by omega)]
    simp [h]

theorem spareAtSpec_eq (rolls : List Int) (fi : Nat) :
    spareAtSpec rolls fi = is_spare rolls fi := by
  rw [spareAtSpec, is_spare]
  by_cases h : fi + 1 < rolls.length
  · have h0 : fi < rolls.length := by omega
    rw [List.getElem?_eq_getElem h, List.getElem?_eq_getElem h0,
      List.getD_eq_getElem rolls 0 h, List.getD_eq_getElem rolls 0 h0]
    simp [h]
  · rw [List.getElem?_eq_none (show rolls.length ≤ fi + 1 by omega)]
    simp [h]

end Bowling

namespace Bowling

/-- The spec-side nine-frame walk coincides with the source's walk. -/
theorem completeSpecWalk_eq (rolls : List Int) :
    ∀ (n fi : Nat), completeSpecWalk n fi rolls = completeLoop n fi rolls := by
  intro n
  induction n with
  | zero => intro fi; rfl
  | succ n ih =>
    intro fi
    rw [completeSpecWalk, completeLoop]
    by_cases h1 : fi < rolls.length
    · rw [List.getElem?_eq_getElem h1,
        if_neg (show ¬ (some rolls[fi] = none) by simp),
        if_neg (show ¬ fi ≥ rolls.length by omega)]
      have hstrike : (some rolls[fi] = some (10 : Int)) ↔ is_strike rolls fi = true := by
        rw [is_strike, List.getD_eq_getElem rolls 0 h1]
        simp [h1]
      by_cases hs : is_strike rolls fi
      · rw [if_pos (hstrike.mpr hs), if_pos hs]
        exact ih (fi + 1)
      · rw [if_neg (fun hc => hs (hstrike.mp hc)), if_neg hs]
        by_cases h2 : fi + 1 < rolls.length
        · rw [if_neg (show ¬ (rolls[fi + 1]? = none) by
              rw [List.getElem?_eq_getElem h2]; simp),
            if_neg (show ¬ fi + 1 ≥ rolls.length by omega)]
          exact ih (fi + 2)
        · rw [if_pos (List.getElem?_eq_none (by omega)),
            if_pos (show fi + 1 ≥ rolls.length by omega)]
    · rw [if_pos (List.getElem?_eq_none (by omega)),
        if_pos (show fi ≥ rolls.length by omega)]

end Bowling

namespace Bowling

/-! ## Claim theorems -/

/-- C1: a perfect game — 12 rolls of 10 from a fresh game — scores 300
(no exception), `is_game_complete` is true after exactly 12 such rolls
and false after any strictly smaller number of rolls of 10. -/
theorem perfect_game_score_and_completion :
    score (List.replicate 12 10) = some 300 ∧
      is_game_complete (List.replicate 12 10) = true ∧
      ∀ k : Fin 12, is_game_complete (List.replicate k.val 10) = false := by
  refine ⟨by decide, by decide, by decide⟩

/-- C2 (counterexample to the claim as stated): on the single-roll game
`[3]` — an element of `[0,10]` — the open-frame branch of `score`'s main
loop performs an out-of-range access (`rolls[1]` with only one roll
recorded), i.e. Python raises `IndexError`; the embedding returns
`none` rather than an integer. -/
theorem score_raises_on_single_open_roll : score [3] = none := by decide

/-- C2 (amended): `score()` raises no exception on any rolls sequence on
which `is_game_complete()` returns true: the nine-frame walk then never
reaches the unchecked open-frame access, so a (total) integer score is
returned. -/
theorem score_isSome_of_complete (rolls : List Int)
    (h : is_game_complete rolls = true) : (score rolls).isSome = true := by
  rw [is_game_complete] at h
  cases hc : completeLoop 9 0 rolls with
  | none => rw [hc] at h; cases h
  | some fi =>
    obtain ⟨-, hsc⟩ := scoreLoop_frameLoop_of_completeLoop rolls 9 0 fi hc
    rw [score, hsc 0]
    rfl

/-- Witness for C2's amended theorem at the all-gutter 20-roll game. -/
theorem score_isSome_of_complete_witness :
    (score (List.replicate 20 0)).isSome = true :=
  score_isSome_of_complete (List.replicate 20 0) (by decide)

/-- C3: `roll(pins)` raises `ValueError` (the `InvalidArgument` error)
exactly when `pins` is not of integer type or lies outside `[0,10]`; on
an invalid input no state is produced (the pre-call state persists), and
on a valid input exactly `pins` is appended to `rolls`. -/
theorem roll_validates_and_appends (g : Game) (pins : PyInput) :
    roll g pins =
      if validPin pins then .ok ⟨g.rolls ++ [pinValue pins], g.current_roll + 1⟩
      else .error () := by
  cases pins with
  | nonint => rfl
  | int n =>
    by_cases h : 0 ≤ n ∧ n ≤ 10
    · have h2 : ¬ (n < 0 ∨ n > 10) := by omega
      simp [roll, validPin, pinValue, h, h2]
    · have h2 : n < 0 ∨ n > 10 := by omega
      simp [roll, validPin, h, h2]

/-- C4: `is_game_complete()` equals the spec's description — frames 1–9
walked with the cursor advancing by 1 on a strike and 2 otherwise,
failing when a needed roll does not exist; then false with fewer than 2
tenth-frame rolls, true for a strike/spare tenth frame exactly when at
least 3 rolls remain, and true for an open tenth frame exactly when at
least 2 rolls remain. -/
theorem is_game_complete_matches_spec (rolls : List Int) :
    is_game_complete rolls = completeSpec rolls := by
  rw [is_game_complete, completeSpec, completeSpecWalk_eq]
  cases h : completeLoop 9 0 rolls with
  | none => rfl
  | some fi => simp only [strikeAtSpec_eq, spareAtSpec_eq]

end Bowling

namespace Bowling

/-- C5: for every complete game, `get_frame_scores()` returns exactly 10
entries whose sum equals the value returned by `score()`. -/
theorem frame_scores_sum_to_score (rolls : List Int)
    (h : is_game_complete rolls = true) :
    (get_frame_scores rolls).length = 10 ∧
      score rolls = some (get_frame_scores rolls).sum := by
  refine ⟨by rw [get_frame_scores]; simp [frameLoop_length], ?_⟩
  rw [is_game_complete] at h
  cases hc : completeLoop 9 0 rolls with
  | none => rw [hc] at h; cases h
  | some fi =>
    obtain ⟨hf, hsc⟩ := scoreLoop_frameLoop_of_completeLoop rolls 9 0 fi hc
    rw [score, hsc 0, get_frame_scores]
    simp only [Option.map_some', List.sum_append, List.sum_cons, List.sum_nil, hf]
    rw [zero_add, add_zero]

/-- Witness for C5 at the all-ones 20-roll game (score 20). -/
theorem frame_scores_sum_to_score_witness :
    (get_frame_scores (List.replicate 20 1)).length = 10 ∧
      score (List.replicate 20 1) = some (get_frame_scores (List.replicate 20 1)).sum :=
  frame_scores_sum_to_score (List.replicate 20 1) (by decide)

/-- C6: `_score_tenth_frame` equals the spec's description — strike:
10 plus the sum of whichever of the next two rolls exist; spare: 10 plus
the roll at `frame_index + 2` if present, else 10; otherwise the sum of
whichever of the two frame rolls exist (0 when neither does). -/
theorem score_tenth_frame_matches_spec (rolls : List Int) (fi : Nat) :
    score_tenth_frame rolls fi = tenthSpec rolls fi := by
  rw [score_tenth_frame, tenthSpec, strikeAtSpec_eq, spareAtSpec_eq]
  by_cases hs : is_strike rolls fi
  · rw [if_pos hs, if_pos hs]
    by_cases h2 : fi + 2 < rolls.length
    · have h1 : fi + 1 < rolls.length := by omega
      rw [if_pos h2,
        if_pos (show rolls[fi + 1]?.isSome = true ∧ rolls[fi + 2]?.isSome = true by
          rw [List.getElem?_eq_getElem h1, List.getElem?_eq_getElem h2]; exact ⟨rfl, rfl⟩),
        List.getElem?_eq_getElem h1, List.getElem?_eq_getElem h2,
        List.getD_eq_getElem rolls 0 h1, List.getD_eq_getElem rolls 0 h2]
      simp
    · rw [if_neg h2]
      have hn2 : rolls[fi + 2]? = none := List.getElem?_eq_none (by omega)
      rw [if_neg (show ¬ (rolls[fi + 1]?.isSome = true ∧ rolls[fi + 2]?.isSome = true) by
        rw [hn2]; simp)]
      by_cases h1 : fi + 1 < rolls.length
      · rw [if_pos h1,
          if_pos (show rolls[fi + 1]?.isSome = true by rw [List.getElem?_eq_getElem h1]; rfl),
          List.getElem?_eq_getElem h1, List.getD_eq_getElem rolls 0 h1]
        simp
      · rw [if_neg h1]
        have hn1 : rolls[fi + 1]? = none := List.getElem?_eq_none (by omega)
        rw [if_neg (show ¬ rolls[fi + 1]?.isSome = true by rw [hn1]; simp)]
  · rw [if_neg hs, if_neg hs]
    by_cases hsp : is_spare rolls fi
    · rw [if_pos hsp, if_pos hsp]
      by_cases h2 : fi + 2 < rolls.length
      · rw [if_pos h2,
          if_pos (show rolls[fi + 2]?.isSome = true by rw [List.getElem?_eq_getElem h2]; rfl),
          List.getElem?_eq_getElem h2, List.getD_eq_getElem rolls 0 h2]
        simp
      · have hn2 : rolls[fi + 2]? = none := List.getElem?_eq_none (by omega)
        rw [if_neg h2, if_neg (show ¬ rolls[fi + 2]?.isSome = true by rw [hn2]; simp)]
    · rw [if_neg hsp, if_neg hsp]
      by_cases h1 : fi + 1 < rolls.length
      · have h0 : fi < rolls.length := by omega
        rw [if_pos h1,
          if_pos (show rolls[fi]?.isSome = true ∧ rolls[fi + 1]?.isSome = true by
            rw [List.getElem?_eq_getElem h0, List.getElem?_eq_getElem h1]; exact ⟨rfl, rfl⟩),
          List.getElem?_eq_getElem h0, List.getElem?_eq_getElem h1,
          List.getD_eq_getElem rolls 0 h0, List.getD_eq_getElem rolls 0 h1]
        simp
      · rw [if_neg h1]
        have hn1 : rolls[fi + 1]? = none := List.getElem?_eq_none (by omega)
        rw [if_neg (show ¬ (rolls[fi]?.isSome = true ∧ rolls[fi + 1]?.isSome = true) by
          rw [hn1]; simp)]
        by_cases h0 : fi < rolls.length
        · rw [if_pos h0,
            if_pos (show rolls[fi]?.isSome = true by rw [List.getElem?_eq_getElem h0]; rfl),
            List.getElem?_eq_getElem h0, List.getD_eq_getElem rolls 0 h0]
          simp
        · have hn0 : rolls[fi]? = none := List.getElem?_eq_none (by omega)
          rw [if_neg h0, if_neg (show ¬ rolls[fi]?.isSome = true by rw [hn0]; simp)]

/-- C7: the all-spares game of 21 rolls each equal to 5 scores 150. -/
theorem all_spares_game_scores_150 : score (List.replicate 21 5) = some 150 := by decide

end Bowling

namespace Bowling

/-- C8: completeness is terminal.  From any game state whose rolls make
`is_game_complete()` true, a further `roll(pins)` with an integer
`pins ∈ [0,10]` is accepted (appended, not rejected), and
`is_game_complete()` is still true on the extended rolls sequence. -/
theorem complete_is_terminal (rolls : List Int) (p : Int)
    (hp0 : 0 ≤ p) (hp1 : p ≤ 10) (h : is_game_complete rolls = true) :
    roll ⟨rolls, rolls.length⟩ (.int p) = .ok ⟨rolls ++ [p], rolls.length + 1⟩ ∧
      is_game_complete (rolls ++ [p]) = true := by
  refine ⟨by rw [roll, if_neg (by omega)], ?_⟩
  rw [is_game_complete] at h
  cases hc : completeLoop 9 0 rolls with
  | none => rw [hc] at h; cases h
  | some fi =>
    rw [hc] at h
    simp only at h
    rw [is_game_complete, completeLoop_append rolls p 9 0 fi hc]
    simp only
    by_cases hlt : rolls.length - fi < 2
    · rw [if_pos hlt] at h; cases h
    rw [if_neg hlt] at h
    have h1 : fi + 1 < rolls.length := by omega
    have hlen : (rolls ++ [p]).length = rolls.length + 1 := by simp
    rw [hlen, is_strike_append rolls p fi (by omega), is_spare_append rolls p fi h1,
      if_neg (show ¬ rolls.length + 1 - fi < 2 by omega)]
    by_cases hcond : (is_strike rolls fi || is_spare rolls fi) = true
    · rw [if_pos hcond] at h
      rw [if_pos hcond]
      have h3 : rolls.length - fi ≥ 3 := by simpa using h
      simp
      omega
    · rw [if_neg hcond] at h ⊢
      simp
      omega

/-- Witness for C8 at the all-gutter 20-roll game extended by a 0. -/
theorem complete_is_terminal_witness :
    roll ⟨List.replicate 20 0, (List.replicate 20 0).length⟩ (.int 0) =
        .ok ⟨List.replicate 20 0 ++ [0], (List.replicate 20 0).length + 1⟩ ∧
      is_game_complete (List.replicate 20 0 ++ [0]) = true :=
  complete_is_terminal (List.replicate 20 0) 0 (by decide) (by decide) (by decide)

/-- C9: `get_frame_scores()` is total — on every rolls sequence,
including the empty and any incomplete one, it performs no out-of-range
access (its open-frame branch bounds-checks both rolls, substituting 0
for absent ones) and returns exactly 10 entries. -/
theorem get_frame_scores_always_ten (rolls : List Int) :
    (get_frame_scores rolls).length = 10 := by
  rw [get_frame_scores]
  simp [frameLoop_length]

/-- C10: the invariant `current_roll == len(rolls)` holds for a fresh
game and is preserved by `roll`: a successful call appends exactly one
element and increments `current_roll` by one (a failed call produces no
state change, and the observers do not touch the state at all). -/
theorem current_roll_tracks_length :
    rollsInv initGame ∧
      ∀ (g : Game) (pins : PyInput) (g' : Game), rollsInv g → roll g pins = .ok g' →
        rollsInv g' ∧ g'.rolls = g.rolls ++ [pinValue pins] ∧
          g'.current_roll = g.current_roll + 1 := by
  refine ⟨rfl, ?_⟩
  intro g pins g' hinv hroll
  cases pins with
  | nonint => cases hroll
  | int n =>
    rw [roll] at hroll
    by_cases h : n < 0 ∨ n > 10
    · rw [if_pos h] at hroll; cases hroll
    · rw [if_neg h] at hroll
      cases hroll
      refine ⟨?_, rfl, rfl⟩
      rw [rollsInv] at hinv ⊢
      simp [hinv, pinValue]

/-- Witness for C10: the invariant after rolling a 3 on a fresh game. -/
theorem current_roll_tracks_length_witness :
    rollsInv ⟨[3], 1⟩ ∧ ([3] : List Int) = initGame.rolls ++ [pinValue (.int 3)] ∧
      1 = initGame.current_roll + 1 :=
  current_roll_tracks_length.2 initGame (.int 3) ⟨[3], 1⟩
    current_roll_tracks_length.1 rfl

end Bowling
